import Mathlib

/-!
Verification of the `repo` package of cephxdev/nero (src/repo/repo.go), a
media object store keeping an in-memory map of media entities backed by an
append-or-rewrite newline-delimited index file.

Shallow embedding conventions:
* `uuid.UUID` is modelled as `String` (only equality of ids matters).
* The Go map `map[uuid.UUID]*media.Media` is modelled as an association list
  `List (UUID × Media)`; a `nil` Go map is `Option.none` around it.
  Enumeration order of the list models the (unspecified) map iteration order.
* The index file is modelled by `FS` as an optional string of its contents
  (`none` = the file does not exist).  File writes are modelled on the happy
  path (open/write/close succeed); the error plumbing of `Create`'s asset
  write, where failures matter to the specification, is modelled separately
  and faithfully to Go's defer / unnamed-result semantics in
  `createWriteReturn`.
* `rand.Shuffle` is modelled by Fisher-Yates driven by an oracle
  `js : Nat → Nat` supplying the random draw for each index (reduced mod the
  bound, as `rand.Intn(i+1)` yields a value in `[0, i]`).
* The mutex and logger fields are irrelevant to the sequential semantics and
  are omitted.
-/

namespace Nero

/-- `uuid.UUID`, modelled by its string form. -/
abbrev UUID := String

/-- `media.Format` (`FormatUnknown`, `FormatImage`, `FormatAnimatedImage`). -/
inductive Format
  | unknown
  | image
  | animatedImage
  deriving DecidableEq

/-- `meta.Metadata`: the closed union of `meta.GenericMetadata` and
`meta.AnimeMetadata`.  Go's `*string` fields become `Option String`. -/
inductive Metadata
  | generic (source artist artistLink : Option String)
  | anime (name : Option String)
  deriving DecidableEq

/-- `media.Media`: one stored asset.  Go's possibly-nil `Meta` interface
value becomes `Option Metadata`. -/
structure Media where
  id : UUID
  format : Format
  path : String
  meta : Option Metadata
  deriving DecidableEq

/-- The error taxonomy of the package: `ErrDuplicateID`,
`errors.ErrUnsupported`, `errors.Wrap`, plain I/O errors, and
`multierr.Append` of two errors. -/
inductive Err
  | duplicateID (id repo : String)
  | unsupported
  | wrap (msg : String) (cause : Err)
  | ioErr (msg : String)
  | multi (first second : Err)
  deriving DecidableEq

/-- `multierr.Append err err0` for `err0 ≠ nil`: keeps `err0` if `err` was
nil, otherwise combines both. -/
def multiAppend : Option Err → Err → Err
  | none, e0 => e0
  | some e, e0 => Err.multi e e0

/-- Go map read `items[k]` on the association-list model. -/
def mapLookup (items : List (UUID × Media)) (k : UUID) : Option Media :=
  match items with
  | [] => none
  | (k0, m) :: rest => if k0 = k then some m else mapLookup rest k

/-- Go map write `items[k] = v`: replaces the binding if the key is present,
otherwise adds one. -/
def mapInsert (items : List (UUID × Media)) (k : UUID) (v : Media) : List (UUID × Media) :=
  match items with
  | [] => [(k, v)]
  | (k0, m) :: rest => if k0 = k then (k0, v) :: rest else (k0, m) :: mapInsert rest k v

/-- Go `delete(items, k)`. -/
def mapDelete (items : List (UUID × Media)) (k : UUID) : List (UUID × Media) :=
  match items with
  | [] => []
  | (k0, m) :: rest => if k0 = k then mapDelete rest k else (k0, m) :: mapDelete rest k

/-- `maps.Values`. -/
def mapValues (items : List (UUID × Media)) : List Media :=
  items.map Prod.snd

/-- `repo.Repository` (logger and mutex omitted).  `items = none` models the
nil Go map of a freshly constructed repository. -/
structure Repository where
  id : String
  path : String
  lockPath : String
  items : Option (List (UUID × Media))
  deriving DecidableEq

/-- The persistent state the repository operations touch: the contents of
the index file at `lockPath` (`none` = file absent). -/
structure FS where
  index : Option String
  deriving DecidableEq

/-- `NewMemory`: no paths, nil item map. -/
def NewMemory (id : String) : Repository :=
  { id := id, path := "", lockPath := "", items := none }

/-- Unix `filepath.IsAbs`: the path begins with a slash. -/
def isAbs (p : String) : Bool :=
  match p.data with
  | [] => false
  | c :: _ => c == '/'

/-- `filepath.Join root p` for a relative `p` (the lexical cleaning that
`Join` also performs is irrelevant to the claims and omitted). -/
def joinPath (root p : String) : String :=
  root ++ "/" ++ p

/-- The absolute form of a loaded record's path, as computed by `NewFile`:
kept as-is when absolute, otherwise joined onto the storage root. -/
def resolvePath (root p : String) : String :=
  if isAbs p then p else joinPath root p

/-- Prefix test on character lists (structural stand-in for
`String.isPrefixOf`, which the kernel cannot reduce). -/
def listIsPrefixOf : List Char → List Char → Bool
  | [], _ => true
  | _ :: _, [] => false
  | c :: cs, d :: ds => c == d && listIsPrefixOf cs ds

/-- Drop the first `n` characters of a string (structural stand-in for
`String.drop`). -/
def strDrop (s : String) (n : Nat) : String :=
  ⟨s.data.drop n⟩

/-- `filepath.Rel root p` as used by `Repository.write`, with the fallback
to `p` itself when `Rel` fails (empty root) or `p` is not below `root`
(the `..`-relative forms `Rel` can produce are irrelevant to the claims). -/
def relPath (root p : String) : String :=
  if root = "" then p
  else if listIsPrefixOf (root ++ "/").data p.data then strDrop p (root.length + 1)
  else p

/-- `media.Format`'s integer representation in the index records.
Modelled from the spec: the `media` package itself is not under `src/`;
§4.7 records `format` as an integer enum, numbered in declaration order. -/
def formatTag : Format → Nat
  | Format.unknown => 0
  | Format.image => 1
  | Format.animatedImage => 2

/-- JSON form of an optional string field.
Modelled from the spec: the `media`/`meta` marshalling code is not under
`src/`; §4.7 fixes the field set. -/
def encodeOptString : Option String → String
  | none => "null"
  | some s => "\"" ++ s ++ "\""

/-- JSON form of the `meta` field (absent for a nil metadata value).
Modelled from the spec: the `media`/`meta` marshalling code is not under
`src/`; §4.7 records `meta` as an object with a discriminator plus the
variant's own fields, or absent. -/
def encodeMeta : Option Metadata → String
  | none => ""
  | some (Metadata.generic s a al) =>
      ",\"meta\":\x7b\"type\":0,\"source\":" ++ encodeOptString s ++
      ",\"artist\":" ++ encodeOptString a ++
      ",\"artistLink\":" ++ encodeOptString al ++ "\x7d"
  | some (Metadata.anime n) =>
      ",\"meta\":\x7b\"type\":1,\"name\":" ++ encodeOptString n ++ "\x7d"

/-- `json.Marshal` of one `media.Media` index record.
Modelled from the spec: the `media` package's marshalling is not under
`src/`; §4.7 fixes one JSON object per line with fields `id`, `format`,
`path`, `meta`. -/
def encodeMedia (m : Media) : String :=
  "\x7b\"id\":\"" ++ m.id ++ "\",\"format\":" ++ toString (formatTag m.format) ++
  ",\"path\":\"" ++ m.path ++ "\"" ++ encodeMeta m.meta ++ "\x7d"

/-- `Repository.write`: one serialized record plus the trailing newline,
with the path made relative to the storage root when possible. -/
def writeLine (root : String) (m : Media) : String :=
  encodeMedia { m with path := relPath root m.path } ++ "\n"

/-- `Repository.save`: full rewrite of the index log.  Faithful detail: the
file is opened with `O_WRONLY|O_CREATE` — no `O_TRUNC` — so the records are
written from offset 0 over the previous contents, and any previous bytes
beyond the newly written length survive. -/
def Repository.save (r : Repository) (fs : FS) : FS :=
  if r.lockPath = "" then fs
  else
    let content := String.join ((mapValues (r.items.getD [])).map (writeLine r.path))
    { index := some (content ++ strDrop (fs.index.getD "") content.length) }

/-- `Repository.saveSingle`: append one record
(`O_WRONLY|O_APPEND|O_CREATE`). -/
def Repository.saveSingle (r : Repository) (fs : FS) (m : Media) : FS :=
  if r.lockPath = "" then fs
  else { index := some ((fs.index.getD "") ++ writeLine r.path m) }

/-- `Repository.Get`. -/
def Repository.Get (r : Repository) (id : UUID) : Option Media :=
  match r.items with
  | none => none
  | some items => mapLookup items id

/-- `Repository.Items` (`maps.Values` of a nil map is empty). -/
def Repository.Items (r : Repository) : List Media :=
  mapValues (r.items.getD [])

/-- `Repository.Add`: allocate the map on first use; reject a duplicate id
before mutating anything; otherwise insert and append to the index. -/
def Repository.Add (r : Repository) (fs : FS) (m : Media) : Repository × FS × Option Err :=
  match r.items with
  | none =>
      let r' := { r with items := some (mapInsert [] m.id m) }
      (r', r'.saveSingle fs m, none)
  | some items =>
      if (mapLookup items m.id).isSome then
        (r, fs, some (Err.duplicateID m.id r.id))
      else
        let r' := { r with items := some (mapInsert items m.id m) }
        (r', r'.saveSingle fs m, none)

/-- `Repository.Remove`: delete from the map (a no-op on a nil map or an
absent key) and rewrite the index log. -/
def Repository.Remove (r : Repository) (fs : FS) (id : UUID) : Repository × FS :=
  let r' := { r with items := Option.map (fun items => mapDelete items id) r.items }
  (r', r'.save fs)

/-- One swap of `rand.Shuffle`'s swap callback on the list model. -/
def listSwap {α : Type} (l : List α) (i j : Nat) : List α :=
  match l[i]?, l[j]? with
  | some x, some y => (l.set i y).set j x
  | _, _ => l

/-- The Fisher-Yates loop of `rand.Shuffle`: for `i` from `n-1` down to `1`,
swap position `i` with a drawn position in `[0, i]`. -/
def fyLoop {α : Type} (js : Nat → Nat) : List α → Nat → List α
  | l, 0 => l
  | l, i + 1 => fyLoop js (listSwap l (i + 1) (js (i + 1) % (i + 2))) i

/-- `rand.Shuffle len(v) swap` over the whole list. -/
def shuffleGo {α : Type} (js : Nat → Nat) (l : List α) : List α :=
  fyLoop js l (l.length - 1)

/-- `Repository.Random`: empty for `n ≤ 0`, otherwise shuffle the item list
and truncate to `n` when longer. -/
def Repository.Random (r : Repository) (js : Nat → Nat) (n : Int) : List Media :=
  if n ≤ 0 then []
  else
    let v := shuffleGo js r.Items
    if (v.length : Int) > n then v.take n.toNat else v

/-- `media.Format` classification switch of `Create`: the entity starts as
`FormatUnknown` and the switch on the detected MIME string overrides it. -/
def classifyFormat (mime : String) : Format :=
  if mime = "image/jpeg" ∨ mime = "image/png" then Format.image
  else if mime = "image/vnd.mozilla.apng" ∨ mime = "image/gif" ∨ mime = "image/webp" then
    Format.animatedImage
  else Format.unknown

/-- `Repository.Create` on the happy I/O path.  `newId` models the fresh
`uuid.New()`, and `mime`/`ext` the external collaborator
`mimetype.Detect` (§6).  Returns the final repository, index file state,
the constructed entity when reached, and the returned error. -/
def Repository.Create (r : Repository) (fs : FS) (newId : UUID) (mime ext : String)
    (md : Option Metadata) : Repository × FS × Option Media × Option Err :=
  if r.path = "" then (r, fs, none, some Err.unsupported)
  else
    let path := r.path ++ "/" ++ newId ++ ext
    let m0 : Media := { id := newId, format := classifyFormat mime, path := path, meta := md }
    let res := r.Add fs m0
    (res.1, res.2.1, some m0, res.2.2)

/-- Outcomes of the three I/O calls in `Create`'s asset-writing section. -/
structure CreateIO where
  openErr : Option Err
  writeErr : Option Err
  closeErr : Option Err
  deriving DecidableEq

/-- `Create`'s asset-writing section and its deferred close, per Go
semantics.  `Create`'s results are UNNAMED, so each `return` statement fixes
the returned values before the deferred function runs; the deferred
`err = multierr.Append(err, ...)` mutates only the local `err` and never
reaches the caller.  Returns (asset file contents if created, the error
value `Create` returns from this section — or `addErr`, the result of the
subsequent `Add`, when the section succeeds — and whether `Add` was
reached). -/
def createWriteReturn (io : CreateIO) (b : List Nat) (addErr : Option Err) :
    Option (List Nat) × Option Err × Bool :=
  match io.openErr with
  | some e => (none, some (Err.wrap ("failed to open file") e), false)
  | none =>
      match io.writeErr with
      | some e => (some [], some (Err.wrap ("failed to write file") e), false)
      | none => (some b, addErr, true)

/-- One line of the index file as seen by the `NewFile` loop: blank, a
successfully decoded `media.Media` record, or a line `json.Unmarshal`
rejects with some error. -/
inductive IndexLine
  | blank
  | record (m : Media)
  | corrupt (e : Err)

/-- The line loop of `NewFile`: skip blanks, abort on a decode failure,
skip duplicate ids keeping the first occurrence, resolve the path against
the root, skip records whose file does not exist (`fe` models `os.Stat`
existence), and insert survivors with their absolute path. -/
def loadLines (root : String) (fe : String → Bool) :
    List IndexLine → List (UUID × Media) → Except Err (List (UUID × Media))
  | [], items => Except.ok items
  | IndexLine.blank :: rest, items => loadLines root fe rest items
  | IndexLine.corrupt e :: _, _ =>
      Except.error (Err.wrap ("failed to read index file item") e)
  | IndexLine.record m :: rest, items =>
      if (mapLookup items m.id).isSome then
        loadLines root fe rest items
      else
        if fe (resolvePath root m.path) then
          loadLines root fe rest
            (mapInsert items m.id { m with path := resolvePath root m.path })
        else
          loadLines root fe rest items

/-- `NewFile` (with `path` already absolute and `os.MkdirAll` succeeding,
which the claims assume): `index = none` models `os.Stat(lockPath)`
failing — the items map stays nil; otherwise the lines are replayed into a
fresh map. -/
def NewFile (id path lockPath : String) (fe : String → Bool)
    (index : Option (List IndexLine)) : Except Err Repository :=
  match index with
  | none => Except.ok { id := id, path := path, lockPath := lockPath, items := none }
  | some lines =>
      match loadLines path fe lines [] with
      | Except.error e => Except.error e
      | Except.ok items =>
          Except.ok { id := id, path := path, lockPath := lockPath, items := some items }

/-- The mutating operations of the repository, for stating temporal claims
over operation sequences (`Create` funnels its insertion through `Add`). -/
inductive Op
  | add (m : Media)
  | remove (id : UUID)
  deriving DecidableEq

/-- Run one operation against the repository plus index-file state. -/
def runOp (s : Repository × FS) : Op → Repository × FS
  | Op.add m => ((s.1.Add s.2 m).1, (s.1.Add s.2 m).2.1)
  | Op.remove i => s.1.Remove s.2 i

/-- Run a sequence of operations. -/
def runOps (s : Repository × FS) (ops : List Op) : Repository × FS :=
  ops.foldl runOp s

/-- The invariant `Add` and `NewFile` maintain, structurally true of a Go
map: every binding stores an entity under its own id, and the keys are
pairwise distinct. -/
def RepoWF (r : Repository) : Prop :=
  (∀ p ∈ r.items.getD [], p.2.id = p.1) ∧ ((r.items.getD []).map Prod.fst).Nodup

/-! ### Fixtures for the concrete witness theorems -/

/-- A fixture entity. -/
def mA : Media :=
  { id := "a", format := Format.image, path := "/r/a.png", meta := none }

/-- A second fixture entity. -/
def mB : Media :=
  { id := "b", format := Format.animatedImage, path := "/r/b.gif",
    meta := some (Metadata.anime (some "x")) }

/-- A file-backed fixture repository holding `mA`. -/
def rA : Repository :=
  { id := "repo", path := "/r", lockPath := "/r/index", items := some [("a", mA)] }

/-- A file-backed fixture repository holding `mA` and `mB`. -/
def rAB : Repository :=
  { id := "repo", path := "/r", lockPath := "/r/index",
    items := some [("a", mA), ("b", mB)] }

/-- The index file matching `rA`. -/
def fsA : FS := { index := some (writeLine ("/r") mA) }

/-- An absent index file. -/
def fsEmpty : FS := { index := none }

/-! ### Helper lemmas about the map model -/

theorem mapLookup_insert_self (items : List (UUID × Media)) (k : UUID) (v : Media) :
    mapLookup (mapInsert items k v) k = some v := by
  induction items with
  | nil => simp [mapInsert, mapLookup]
  | cons p rest ih =>
      obtain ⟨k0, m⟩ := p
      by_cases h : k0 = k <;> simp [mapInsert, mapLookup, h, ih]

theorem mapLookup_insert_ne (items : List (UUID × Media)) (k k1 : UUID) (v : Media)
    (h : k1 ≠ k) : mapLookup (mapInsert items k v) k1 = mapLookup items k1 := by
  have hk : k ≠ k1 := fun h0 => h h0.symm
  induction items with
  | nil => simp [mapInsert, mapLookup, hk]
  | cons p rest ih =>
      obtain ⟨k0, m⟩ := p
      by_cases h0 : k0 = k
      · subst h0
        simp [mapInsert, mapLookup, hk]
      · by_cases h1 : k0 = k1
        · subst h1
          simp [mapInsert, mapLookup, h0]
        · simp [mapInsert, mapLookup, h0, h1, ih]

theorem mapLookup_delete_self (items : List (UUID × Media)) (k : UUID) :
    mapLookup (mapDelete items k) k = none := by
  induction items with
  | nil => simp [mapDelete, mapLookup]
  | cons p rest ih =>
      obtain ⟨k0, m⟩ := p
      by_cases h : k0 = k <;> simp [mapDelete, mapLookup, h, ih]

theorem mapLookup_delete_ne (items : List (UUID × Media)) (k k1 : UUID) (h : k1 ≠ k) :
    mapLookup (mapDelete items k) k1 = mapLookup items k1 := by
  have hk : k ≠ k1 := fun h0 => h h0.symm
  induction items with
  | nil => simp [mapDelete, mapLookup]
  | cons p rest ih =>
      obtain ⟨k0, m⟩ := p
      by_cases h0 : k0 = k
      · subst h0
        simp [mapDelete, mapLookup, hk, ih]
      · by_cases h1 : k0 = k1
        · subst h1
          simp [mapDelete, mapLookup, h0]
        · simp [mapDelete, mapLookup, h0, h1, ih]

/-! ### The Fisher-Yates loop permutes its input -/

theorem cons_set_perm {α : Type} (a : α) :
    ∀ (t : List α) (m : Nat) (y : α), t[m]? = some y →
      List.Perm (y :: t.set m a) (a :: t) := by
  intro t
  induction t with
  | nil => intro m y h; simp at h
  | cons b t ih =>
      intro m y h
      cases m with
      | zero =>
          simp at h
          subst h
          simpa using List.Perm.swap a b t
      | succ k =>
          simp at h
          have s1 : List.Perm (y :: b :: t.set k a) (b :: y :: t.set k a) :=
            List.Perm.swap b y (t.set k a)
          have s2 : List.Perm (b :: y :: t.set k a) (b :: a :: t) :=
            List.Perm.cons b (ih k y h)
          have s3 : List.Perm (b :: a :: t) (a :: b :: t) := List.Perm.swap a b t
          simpa using (s1.trans s2).trans s3

theorem listSwap_perm {α : Type} : ∀ (l : List α) (i j : Nat), List.Perm (listSwap l i j) l := by
  intro l
  induction l with
  | nil => intro i j; simp [listSwap]
  | cons a t ih =>
      intro i j
      cases i with
      | zero =>
          cases j with
          | zero => simp [listSwap]
          | succ m =>
              cases h : t[m]? with
              | none => simp [listSwap, h]
              | some y => simpa [listSwap, h] using cons_set_perm a t m y h
      | succ n =>
          cases j with
          | zero =>
              cases h : t[n]? with
              | none => simp [listSwap, h]
              | some x => simpa [listSwap, h] using cons_set_perm a t n x h
          | succ m =>
              cases h1 : t[n]? with
              | none => simp [listSwap, h1]
              | some x =>
                  cases h2 : t[m]? with
                  | none => simp [listSwap, h1, h2]
                  | some y =>
                      have h3 := ih n m
                      simp [listSwap, h1, h2] at h3 ⊢
                      exact h3

theorem fyLoop_perm {α : Type} (js : Nat → Nat) :
    ∀ (i : Nat) (l : List α), List.Perm (fyLoop js l i) l := by
  intro i
  induction i with
  | zero => intro l; simp [fyLoop]
  | succ k ih =>
      intro l
      exact (ih _).trans (listSwap_perm l (k + 1) (js (k + 1) % (k + 2)))

theorem shuffleGo_perm {α : Type} (js : Nat → Nat) (l : List α) :
    List.Perm (shuffleGo js l) l :=
  fyLoop_perm js (l.length - 1) l

theorem shuffleGo_nil {α : Type} (js : Nat → Nat) : shuffleGo js ([] : List α) = [] :=
  List.Perm.eq_nil (shuffleGo_perm js [])

/-! ### Well-formedness of the item map -/

theorem items_nodup (r : Repository) (h : RepoWF r) : r.Items.Nodup := by
  obtain ⟨h1, h2⟩ := h
  have hmap : r.Items.map Media.id = (r.items.getD []).map Prod.fst := by
    have := List.map_congr_left (f := fun p : UUID × Media => p.2.id) (g := Prod.fst) h1
    simpa [Repository.Items, mapValues, List.map_map, Function.comp] using this
  exact List.Nodup.of_map Media.id (hmap ▸ h2)

/-! ### Get/Add/Remove interaction lemmas -/

theorem add_get_self (r : Repository) (fs : FS) (m : Media)
    (h : (r.Add fs m).2.2 = none) : (r.Add fs m).1.Get m.id = some m := by
  cases hst : r.items with
  | none => simp [Repository.Add, Repository.Get, hst, mapLookup_insert_self]
  | some items =>
      by_cases hd : (mapLookup items m.id).isSome
      · simp [Repository.Add, hst, hd] at h
      · simp [Repository.Add, Repository.Get, hst, hd, mapLookup_insert_self]

theorem remove_get_none (r : Repository) (fs : FS) (i : UUID) :
    (r.Remove fs i).1.Get i = none := by
  cases hst : r.items with
  | none => simp [Repository.Remove, Repository.Get, hst]
  | some items => simp [Repository.Remove, Repository.Get, hst, mapLookup_delete_self]

theorem get_preserved (s : Repository × FS) (m : Media) (op : Op)
    (hget : s.1.Get m.id = some m) (hop : op ≠ Op.remove m.id) :
    (runOp s op).1.Get m.id = some m := by
  obtain ⟨r, fs⟩ := s
  cases op with
  | add m1 =>
      cases hst : r.items with
      | none => simp [Repository.Get, hst] at hget
      | some items =>
          simp [Repository.Get, hst] at hget
          by_cases hd : (mapLookup items m1.id).isSome
          · simp [runOp, Repository.Add, Repository.Get, hst, hd, hget]
          · by_cases hid : m1.id = m.id
            · rw [hid, hget] at hd
              simp at hd
            · simp [runOp, Repository.Add, Repository.Get, hst, hd,
                mapLookup_insert_ne items m1.id m.id m1 (fun hx => hid hx.symm), hget]
  | remove i =>
      have hi : m.id ≠ i := fun hx => hop (congrArg Op.remove hx.symm)
      cases hst : r.items with
      | none => simp [Repository.Get, hst] at hget
      | some items =>
          simp [Repository.Get, hst] at hget
          simp [runOp, Repository.Remove, Repository.Get, hst,
            mapLookup_delete_ne items i m.id hi, hget]

theorem get_preserved_ops (s : Repository × FS) (m : Media) (ops : List Op)
    (hget : s.1.Get m.id = some m) (hops : ∀ op ∈ ops, op ≠ Op.remove m.id) :
    (runOps s ops).1.Get m.id = some m := by
  induction ops generalizing s with
  | nil => simpa [runOps] using hget
  | cons op rest ih =>
      have h1 := get_preserved s m op hget (hops op (by simp))
      have h2 : runOps s (op :: rest) = runOps (runOp s op) rest := by simp [runOps]
      rw [h2]
      exact ih (runOp s op) h1 (fun o ho => hops o (by simp [ho]))

/-! ### Claim theorems -/

/-- C1: `Remove` does delete the id from the in-memory map, but the claimed
truncate-and-rewrite of the index log is refuted by the code: `save` opens
the index with `O_WRONLY|O_CREATE` and no `O_TRUNC`, so after removing the
only item the index file still holds the old record's bytes rather than the
(empty) serialization of the surviving items. -/
theorem remove_leaves_stale_index :
    (rA.Remove fsA "a").1.items = some [] ∧
    (rA.Remove fsA "a").2.index = some (writeLine ("/r") mA) ∧
    writeLine ("/r") mA ≠ "" := by
  refine ⟨by decide, by decide, by decide⟩

/-- C2: `Add` of an entity whose id is already in the item map fails with a
`DuplicateID` error carrying the offending id and the repository identifier,
and leaves the repository state, its `Items()` view and the index file
unchanged. -/
theorem add_duplicate_id (r : Repository) (fs : FS) (m m0 : Media)
    (items : List (UUID × Media)) (hitems : r.items = some items)
    (hdup : mapLookup items m.id = some m0) :
    r.Add fs m = (r, fs, some (Err.duplicateID m.id r.id)) ∧
    (r.Add fs m).1.Items = r.Items ∧ (r.Add fs m).2.1.index = fs.index := by
  have h1 : r.Add fs m = (r, fs, some (Err.duplicateID m.id r.id)) := by
    simp [Repository.Add, hitems, hdup]
  exact ⟨h1, by rw [h1], by rw [h1]⟩

theorem add_duplicate_id_witness :
    rA.Add fsA mA = (rA, fsA, some (Err.duplicateID mA.id rA.id)) ∧
    (rA.Add fsA mA).1.Items = rA.Items ∧ (rA.Add fsA mA).2.1.index = fsA.index :=
  add_duplicate_id rA fsA mA mA [("a", mA)] rfl (by decide)

/-- C5: refutation of the claim that a close failure after a successful
asset write is reported to `Create`'s caller: `Create`'s results are
unnamed, so the deferred `multierr.Append` mutates a dead local and the
caller gets only the result of `Add` (here `none`), while the written
payload is kept — the no-rollback part of the claim does hold. -/
theorem create_close_error_discarded :
    createWriteReturn
        { openErr := none, writeErr := none,
          closeErr := some (Err.ioErr ("close failed")) }
        [7, 7] none
      = (some [7, 7], none, true) := rfl

/-- C7: the entity `Create` constructs has its format classified from the
detected MIME string: jpeg/png give `Image`; apng/gif/webp give
`AnimatedImage`; every other MIME string gives `Unknown`. -/
theorem create_format_classification (r : Repository) (fs : FS) (newId mime ext : String)
    (md : Option Metadata) (m0 : Media)
    (hm : (r.Create fs newId mime ext md).2.2.1 = some m0) :
    m0.format = classifyFormat mime ∧
    ((mime = "image/jpeg" ∨ mime = "image/png") → m0.format = Format.image) ∧
    ((mime = "image/vnd.mozilla.apng" ∨ mime = "image/gif" ∨ mime = "image/webp") →
      m0.format = Format.animatedImage) ∧
    (mime ≠ "image/jpeg" → mime ≠ "image/png" → mime ≠ "image/vnd.mozilla.apng" →
      mime ≠ "image/gif" → mime ≠ "image/webp" → m0.format = Format.unknown) := by
  have hfmt : m0.format = classifyFormat mime := by
    by_cases hp : r.path = ""
    · simp [Repository.Create, hp] at hm
    · simp [Repository.Create, hp] at hm
      subst hm
      simp
  refine ⟨hfmt, ?_, ?_, ?_⟩
  · rintro (h | h) <;> (subst h; rw [hfmt]; decide)
  · rintro (h | h | h) <;> (subst h; rw [hfmt]; decide)
  · intro h1 h2 h3 h4 h5
    rw [hfmt]
    simp [classifyFormat, h1, h2, h3, h4, h5]

theorem create_format_classification_witness :
    ({ id := "c", format := Format.animatedImage, path := "/r/c.gif",
       meta := none } : Media).format = classifyFormat ("image/gif") ∧
    ((("image/gif" : String) = "image/jpeg" ∨ ("image/gif" : String) = "image/png") →
      ({ id := "c", format := Format.animatedImage, path := "/r/c.gif",
         meta := none } : Media).format = Format.image) ∧
    ((("image/gif" : String) = "image/vnd.mozilla.apng" ∨ ("image/gif" : String) = "image/gif" ∨
        ("image/gif" : String) = "image/webp") →
      ({ id := "c", format := Format.animatedImage, path := "/r/c.gif",
         meta := none } : Media).format = Format.animatedImage) ∧
    (("image/gif" : String) ≠ "image/jpeg" → ("image/gif" : String) ≠ "image/png" →
      ("image/gif" : String) ≠ "image/vnd.mozilla.apng" → ("image/gif" : String) ≠ "image/gif" →
      ("image/gif" : String) ≠ "image/webp" →
      ({ id := "c", format := Format.animatedImage, path := "/r/c.gif",
         meta := none } : Media).format = Format.unknown) :=
  create_format_classification rA fsA "c" ("image/gif") (".gif") none
    { id := "c", format := Format.animatedImage, path := "/r/c.gif", meta := none }
    (by decide)

/-- C9: whenever `Create` gets past the unsupported-operation check it
returns the fully constructed entity — generated id, classified format,
destination path `root/<id><ext>` and the supplied metadata — alongside
exactly the error the subsequent `Add` produced, so a caller can tell "file
written but not indexed" from "nothing written". -/
theorem create_returns_entity (r : Repository) (fs : FS) (newId mime ext : String)
    (md : Option Metadata) (h : r.path ≠ "") :
    (r.Create fs newId mime ext md).2.2.1 =
      some { id := newId, format := classifyFormat mime,
             path := r.path ++ "/" ++ newId ++ ext, meta := md } ∧
    (r.Create fs newId mime ext md).2.2.2 =
      (r.Add fs { id := newId, format := classifyFormat mime,
                  path := r.path ++ "/" ++ newId ++ ext, meta := md }).2.2 := by
  simp [Repository.Create, h]

theorem create_returns_entity_witness :
    ((rA.Create fsA "a" ("image/png") (".png") none).2.2.1 =
        some { id := "a", format := classifyFormat ("image/png"),
               path := rA.path ++ "/" ++ "a" ++ ".png", meta := none } ∧
      (rA.Create fsA "a" ("image/png") (".png") none).2.2.2 =
        (rA.Add fsA { id := "a", format := classifyFormat ("image/png"),
                      path := rA.path ++ "/" ++ "a" ++ ".png", meta := none }).2.2) ∧
    (rA.Create fsA "a" ("image/png") (".png") none).2.2.2 =
      some (Err.duplicateID ("a") ("repo")) :=
  ⟨create_returns_entity rA fsA "a" ("image/png") (".png") none (by decide), by decide⟩

/-- C6: an entity `m` successfully inserted by `Add` is returned by
`Get(m.id)` across any further `Add`/`Remove` operations that do not remove
`m.id`; once `Remove(m.id)` runs, `Get(m.id)` returns nothing. -/
theorem get_add_remove_trace (r : Repository) (fs : FS) (m : Media)
    (hadd : (r.Add fs m).2.2 = none) (ops : List Op)
    (hops : ∀ op ∈ ops, op ≠ Op.remove m.id) :
    (runOps ((r.Add fs m).1, (r.Add fs m).2.1) ops).1.Get m.id = some m ∧
    ((runOps ((r.Add fs m).1, (r.Add fs m).2.1) ops).1.Remove
        (runOps ((r.Add fs m).1, (r.Add fs m).2.1) ops).2 m.id).1.Get m.id = none :=
  ⟨get_preserved_ops _ m ops (add_get_self r fs m hadd) hops,
   remove_get_none _ _ _⟩

theorem get_add_remove_trace_witness :
    (runOps (((NewMemory ("repo")).Add fsEmpty mA).1,
        ((NewMemory ("repo")).Add fsEmpty mA).2.1)
        [Op.add mB, Op.remove ("b")]).1.Get mA.id = some mA ∧
    ((runOps (((NewMemory ("repo")).Add fsEmpty mA).1,
          ((NewMemory ("repo")).Add fsEmpty mA).2.1)
          [Op.add mB, Op.remove ("b")]).1.Remove
        (runOps (((NewMemory ("repo")).Add fsEmpty mA).1,
          ((NewMemory ("repo")).Add fsEmpty mA).2.1)
          [Op.add mB, Op.remove ("b")]).2 mA.id).1.Get mA.id = none :=
  get_add_remove_trace (NewMemory ("repo")) fsEmpty mA (by decide)
    [Op.add mB, Op.remove ("b")] (by decide)

/-- C8: on a memory-only repository (empty root and index paths) `Create`
always fails with the unsupported-operation error and changes nothing,
while `Add` and `Remove` keep their normal in-memory semantics and never
change the index file state; `Get` reads no disk state by construction. -/
theorem memory_repo_ops (r : Repository) (h1 : r.path = "") (h2 : r.lockPath = "") :
    (∀ fs newId mime ext md,
      r.Create fs newId mime ext md = (r, fs, none, some Err.unsupported)) ∧
    (∀ fs m, (r.Add fs m).2.1 = fs) ∧
    (∀ fs m, (r.Add fs m).2.2 = none →
      (r.Add fs m).1.items = some (mapInsert (r.items.getD []) m.id m)) ∧
    (∀ fs m items, r.items = some items → (mapLookup items m.id).isSome = true →
      r.Add fs m = (r, fs, some (Err.duplicateID m.id r.id))) ∧
    (∀ fs i, (r.Remove fs i).2 = fs ∧
      (r.Remove fs i).1.items = Option.map (fun items => mapDelete items i) r.items) := by
  refine ⟨?_, ?_, ?_, ?_, ?_⟩
  · intro fs newId mime ext md
    simp [Repository.Create, h1]
  · intro fs m
    cases hst : r.items with
    | none => simp [Repository.Add, Repository.saveSingle, hst, h2]
    | some items =>
        by_cases hd : (mapLookup items m.id).isSome <;>
          simp [Repository.Add, Repository.saveSingle, hst, h2, hd]
  · intro fs m hnone
    cases hst : r.items with
    | none => simp [Repository.Add, hst]
    | some items =>
        by_cases hd : (mapLookup items m.id).isSome
        · simp [Repository.Add, hst, hd] at hnone
        · simp [Repository.Add, hst, hd]
  · intro fs m items hst hd
    simp [Repository.Add, hst, hd]
  · intro fs i
    exact ⟨by simp [Repository.Remove, Repository.save, h2], by simp [Repository.Remove]⟩

theorem memory_repo_ops_witness :
    (∀ fs newId mime ext md,
      (NewMemory ("mem")).Create fs newId mime ext md =
        (NewMemory ("mem"), fs, none, some Err.unsupported)) ∧
    (∀ fs m, ((NewMemory ("mem")).Add fs m).2.1 = fs) ∧
    (∀ fs m, ((NewMemory ("mem")).Add fs m).2.2 = none →
      ((NewMemory ("mem")).Add fs m).1.items =
        some (mapInsert ((NewMemory ("mem")).items.getD []) m.id m)) ∧
    (∀ fs m items, (NewMemory ("mem")).items = some items →
      (mapLookup items m.id).isSome = true →
      (NewMemory ("mem")).Add fs m =
        (NewMemory ("mem"), fs, some (Err.duplicateID m.id (NewMemory ("mem")).id))) ∧
    (∀ fs i, ((NewMemory ("mem")).Remove fs i).2 = fs ∧
      ((NewMemory ("mem")).Remove fs i).1.items =
        Option.map (fun items => mapDelete items i) (NewMemory ("mem")).items) :=
  memory_repo_ops (NewMemory ("mem")) rfl rfl

/-- C10: a repository whose item map was never allocated — `NewMemory`, or
`NewFile` with the index file absent — carries `items = none` rather than an
empty map, yet every read is total: `Get` finds nothing, `Items` is empty
and `Random` is empty for every `n`; the map is allocated by the first
`Add`. -/
theorem nil_items_reads (i path lockPath : String) (fe : String → Bool)
    (r : Repository) (hr : r.items = none) :
    (NewMemory i).items = none ∧
    NewFile i path lockPath fe none =
      Except.ok { id := i, path := path, lockPath := lockPath, items := none } ∧
    (∀ k, r.Get k = none) ∧
    r.Items = [] ∧
    (∀ js n, r.Random js n = []) ∧
    (∀ fs m, (r.Add fs m).1.items = some (mapInsert [] m.id m)) := by
  have hItems : r.Items = [] := by simp [Repository.Items, hr, mapValues]
  refine ⟨rfl, rfl, ?_, hItems, ?_, ?_⟩
  · intro k
    simp [Repository.Get, hr]
  · intro js n
    by_cases hn : n ≤ 0
    · simp [Repository.Random, hn]
    · simp [Repository.Random, hn, hItems, shuffleGo_nil]
  · intro fs m
    simp [Repository.Add, hr]

theorem nil_items_reads_witness :
    (NewMemory ("mem")).items = none ∧
    NewFile ("mem") ("/r") ("/r/index") (fun _ => false) none =
      Except.ok { id := "mem", path := "/r", lockPath := "/r/index", items := none } ∧
    (∀ k, (NewMemory ("mem")).Get k = none) ∧
    (NewMemory ("mem")).Items = [] ∧
    (∀ js n, (NewMemory ("mem")).Random js n = []) ∧
    (∀ fs m, ((NewMemory ("mem")).Add fs m).1.items = some (mapInsert [] m.id m)) :=
  nil_items_reads ("mem") ("/r") ("/r/index") (fun _ => false) (NewMemory ("mem")) rfl

/-- C3: `Random(n)` returns empty for `n ≤ 0`; for `0 < n ≤ |items|` it
returns exactly `n` pairwise-distinct entities drawn from the current item
set; for `n > |items|` it returns all of the items (up to order). -/
theorem random_spec (r : Repository) (js : Nat → Nat) (n : Int) (hWF : RepoWF r) :
    (n ≤ 0 → r.Random js n = []) ∧
    (0 < n → n ≤ (r.Items.length : Int) →
      ((r.Random js n).length : Int) = n ∧ (r.Random js n).Nodup ∧
      ∀ m ∈ r.Random js n, m ∈ r.Items) ∧
    ((r.Items.length : Int) < n → List.Perm (r.Random js n) r.Items) := by
  have hperm := shuffleGo_perm js r.Items
  have hlen : (shuffleGo js r.Items).length = r.Items.length := hperm.length_eq
  have hnd : (shuffleGo js r.Items).Nodup := hperm.nodup_iff.mpr (items_nodup r hWF)
  refine ⟨fun h => by simp [Repository.Random, h], ?_, ?_⟩
  · intro h0 hle
    have hn0 : ¬ n ≤ 0 := by omega
    by_cases hgt : ((shuffleGo js r.Items).length : Int) > n
    · have hres : r.Random js n = (shuffleGo js r.Items).take n.toNat := by
        simp [Repository.Random, hn0, hgt]
      refine ⟨?_, ?_, ?_⟩
      · rw [hres, List.length_take]
        omega
      · rw [hres]
        exact List.Nodup.sublist (List.take_sublist _ _) hnd
      · intro m hm
        rw [hres] at hm
        exact hperm.subset (List.take_subset _ _ hm)
    · have hres : r.Random js n = shuffleGo js r.Items := by
        simp [Repository.Random, hn0, hgt]
      refine ⟨?_, ?_, ?_⟩
      · rw [hres]
        omega
      · rw [hres]
        exact hnd
      · intro m hm
        rw [hres] at hm
        exact hperm.subset hm
  · intro hlt
    have hn0 : ¬ n ≤ 0 := by omega
    have hgt : ¬ ((shuffleGo js r.Items).length : Int) > n := by omega
    have hres : r.Random js n = shuffleGo js r.Items := by
      simp [Repository.Random, hn0, hgt]
    rw [hres]
    exact hperm

theorem random_spec_witness :
    ((1 : Int) ≤ 0 → rAB.Random (fun _ => 0) 1 = []) ∧
    ((0 : Int) < 1 → (1 : Int) ≤ (rAB.Items.length : Int) →
      ((rAB.Random (fun _ => 0) 1).length : Int) = 1 ∧ (rAB.Random (fun _ => 0) 1).Nodup ∧
      ∀ m ∈ rAB.Random (fun _ => 0) 1, m ∈ rAB.Items) ∧
    ((rAB.Items.length : Int) < 1 → List.Perm (rAB.Random (fun _ => 0) 1) rAB.Items) :=
  random_spec rAB (fun _ => 0) 1 (by unfold RepoWF; decide)

/-- C4: the `NewFile` reload behaviour: a missing index file yields a
successful construction with no items; blank lines are skipped; a line that
fails to decode aborts the whole construction with the index-corruption
error; a record whose id is already loaded is skipped (first occurrence
kept); a record whose resolved path does not exist on disk is skipped; any
surviving record is inserted under its id with its path resolved against
the storage root, absolute whenever the root is. -/
theorem newFile_reload_spec (idr root lockPath : String) (fe : String → Bool)
    (rest : List IndexLine) (acc : List (UUID × Media)) (m m0 : Media) (e : Err) :
    (NewFile idr root lockPath fe none =
        Except.ok { id := idr, path := root, lockPath := lockPath, items := none } ∧
      ∀ r0, NewFile idr root lockPath fe none = Except.ok r0 → r0.Items = []) ∧
    loadLines root fe (IndexLine.blank :: rest) acc = loadLines root fe rest acc ∧
    loadLines root fe (IndexLine.corrupt e :: rest) acc =
      Except.error (Err.wrap ("failed to read index file item") e) ∧
    (mapLookup acc m.id = some m0 →
      loadLines root fe (IndexLine.record m :: rest) acc = loadLines root fe rest acc) ∧
    (mapLookup acc m.id = none → fe (resolvePath root m.path) = false →
      loadLines root fe (IndexLine.record m :: rest) acc = loadLines root fe rest acc) ∧
    (mapLookup acc m.id = none → fe (resolvePath root m.path) = true →
      loadLines root fe (IndexLine.record m :: rest) acc =
        loadLines root fe rest (mapInsert acc m.id { m with path := resolvePath root m.path })) ∧
    (isAbs root = true → isAbs (resolvePath root m.path) = true) := by
  refine ⟨⟨rfl, ?_⟩, ?_, ?_, ?_, ?_, ?_, ?_⟩
  · intro r0 h0
    simp [NewFile] at h0
    subst h0
    simp [Repository.Items, mapValues]
  · simp [loadLines]
  · simp [loadLines]
  · intro hdup
    simp [loadLines, hdup]
  · intro hnone hmiss
    simp [loadLines, hnone, hmiss]
  · intro hnone hexists
    simp [loadLines, hnone, hexists]
  · intro habs
    unfold resolvePath
    by_cases hp : isAbs m.path
    · simp [hp]
    · simp only [hp, Bool.false_eq_true, if_false, joinPath]
      unfold isAbs at habs ⊢
      rcases hd : root.data with _ | ⟨c, cs⟩
      · simp [hd] at habs
      · simp [String.data_append, hd] at habs ⊢
        exact habs

theorem newFile_reload_spec_witness :
    (NewFile ("w4") ("/root") ("/root/idx") (fun _ => true) none =
        Except.ok { id := "w4", path := "/root", lockPath := "/root/idx", items := none } ∧
      ∀ r0, NewFile ("w4") ("/root") ("/root/idx") (fun _ => true) none = Except.ok r0 →
        r0.Items = []) ∧
    loadLines ("/root") (fun _ => true) (IndexLine.blank :: []) [] =
      loadLines ("/root") (fun _ => true) [] [] ∧
    loadLines ("/root") (fun _ => true) (IndexLine.corrupt (Err.ioErr ("bad")) :: []) [] =
      Except.error (Err.wrap ("failed to read index file item") (Err.ioErr ("bad"))) ∧
    (mapLookup [] mA.id = some mA →
      loadLines ("/root") (fun _ => true) (IndexLine.record mA :: []) [] =
        loadLines ("/root") (fun _ => true) [] []) ∧
    (mapLookup [] mA.id = none → (fun _ => true) (resolvePath ("/root") mA.path) = false →
      loadLines ("/root") (fun _ => true) (IndexLine.record mA :: []) [] =
        loadLines ("/root") (fun _ => true) [] []) ∧
    (mapLookup [] mA.id = none → (fun _ => true) (resolvePath ("/root") mA.path) = true →
      loadLines ("/root") (fun _ => true) (IndexLine.record mA :: []) [] =
        loadLines ("/root") (fun _ => true) []
          (mapInsert [] mA.id { mA with path := resolvePath ("/root") mA.path })) ∧
    (isAbs ("/root") = true → isAbs (resolvePath ("/root") mA.path) = true) :=
  newFile_reload_spec ("w4") ("/root") ("/root/idx") (fun _ => true) [] [] mA mA
    (Err.ioErr ("bad"))

end Nero
